import Mathlib

/-!
Verification of the transactional client's MemBuffer/union-store layer.

Shallow embedding of:
- `internal/unionstore/union_store.go` (`KVUnionStore.Get`, `Iter`/`IterReverse`,
  `HasPresumeKeyNotExists`, `UnmarkPresumeKeyNotExists`, `SetEntrySizeLimit`);
- `internal/unionstore/art/art_arena.go` (node/leaf arena allocator);
- `txnkv/rangetask/range_task.go` (`Runner.RunOnRange`, `rangeTaskWorker.run`);
- the error helpers of the `error` package (`IsErrNotFound`, `ErrNotExist`).

Byte strings are modelled as `List Nat`; Go's `bytes.Compare` as `bytesCmp`.
Components whose source files are not part of this tree (the union iterator,
the MemDB iterator generation counter, the `kv` key-flags package, ART node
structs) are modelled from the specification; their doc comments say so.
-/

/-- Byte strings (`[]byte` in the source). -/
abbrev Bytes := List Nat

/-- Go's `bytes.Compare`: lexicographic three-way comparison of byte strings. -/
def bytesCmp : Bytes → Bytes → Ordering
  | [], [] => Ordering.eq
  | [], _ :: _ => Ordering.lt
  | _ :: _, [] => Ordering.gt
  | a :: as, b :: bs =>
    if a < b then Ordering.lt
    else if b < a then Ordering.gt
    else bytesCmp as bs

/-- Error values relevant to the embedded code paths: `tikverr.ErrNotExist`,
`context.Canceled` (returned by `ctx.Err()` after cancellation), and an
arbitrary supply of other error values. -/
inductive GoErr
  | notExist
  | contextCanceled
  | other (code : Nat)
deriving DecidableEq

/-- Embeds `tikverr.IsErrNotFound` (txnkv/client.go, error package): true exactly when
the error is of the `ErrNotExist` kind; a nil error is not a NotFound error. -/
def IsErrNotFound : Option GoErr → Bool
  | some GoErr.notExist => true
  | _ => false

/-- The `(value, error)` pair returned by a Go `Get`; a nil byte slice and the
empty slice are identified (only `len(v)` is ever inspected). -/
structure GetResult where
  val : Bytes
  err : Option GoErr
deriving DecidableEq

/-- The tail of `KVUnionStore.Get` (union_store.go lines 105-111): a non-nil
error is returned as is; an empty value is reported as `ErrNotExist` with a nil
value; otherwise the value is returned. -/
def finishGet (r : GetResult) : GetResult :=
  match r.err with
  | some _ => r
  | none => if r.val.length = 0 then ⟨[], some GoErr.notExist⟩ else r

/-- Embeds `KVUnionStore.Get` (union_store.go lines 100-112), as a function of the
result of the MemBuffer lookup and the result of the remote snapshot lookup:
the snapshot is consulted exactly when the buffer result is a NotFound error. -/
def KVUnionStoreGet (bufRes snapRes : GetResult) : GetResult :=
  finishGet (if IsErrNotFound bufRes.err then snapRes else bufRes)

/-- Association-list lookup by key (first match). -/
def lookupAssoc {α : Type} : List (Bytes × α) → Bytes → Option α
  | [], _ => none
  | (k0, v0) :: rest, k => if k0 = k then some v0 else lookupAssoc rest k

/-- Association-list update: replace the binding of `k`, or append one. -/
def setAssoc {α : Type} : List (Bytes × α) → Bytes → α → List (Bytes × α)
  | [], k, v => [(k, v)]
  | (k0, v0) :: rest, k, v =>
    if k0 = k then (k0, v) :: rest else (k0, v0) :: setAssoc rest k v

/-- The comparator used by the union iterator: forward uses `bytes.Compare`
directly, reverse flips the arguments (spec §4.G, "the symmetric comparator").
`KVUnionStore.Iter` passes `reverse = false`, `IterReverse` passes `true`
(union_store.go lines 115-138). -/
def dirCmp (reverse : Bool) (a b : Bytes) : Ordering :=
  if reverse then bytesCmp b a else bytesCmp a b

/-- Modelled from the spec: the union iterator of §4.G (`NewUnionIter`; its
source file is not in this tree). Both inputs are ordered streams of
`(key, value)` pairs over the same half-open bounds and direction, rendered as
lists; the first list is the MemBuffer side, the second the remote snapshot
side. At each step the smaller key is emitted; on a tie the buffer entry
shadows the snapshot entry and both sides advance; emissions whose buffer
value is empty (tombstones) are skipped; an exhausted side reduces the merge
to the other side. -/
def unionPairs (c : Bytes → Bytes → Ordering) :
    List (Bytes × Bytes) → List (Bytes × Bytes) → List (Bytes × Bytes)
  | [], ss => ss
  | (bk, bv) :: bs, [] =>
    if bv = [] then unionPairs c bs []
    else (bk, bv) :: unionPairs c bs []
  | (bk, bv) :: bs, (sk, sv) :: ss =>
    match c bk sk with
    | Ordering.lt =>
      if bv = [] then unionPairs c bs ((sk, sv) :: ss)
      else (bk, bv) :: unionPairs c bs ((sk, sv) :: ss)
    | Ordering.gt => (sk, sv) :: unionPairs c ((bk, bv) :: bs) ss
    | Ordering.eq =>
      if bv = [] then unionPairs c bs ss
      else (bk, bv) :: unionPairs c bs ss
termination_by bs ss => bs.length + ss.length

/-- Keys strictly ascending under comparator `c` (for the reverse comparator
this is descending key order). -/
abbrev sortedKeys (c : Bytes → Bytes → Ordering) (l : List (Bytes × Bytes)) : Prop :=
  List.Pairwise (fun p q => c p.1 q.1 = Ordering.lt) l

/-- Modelled from the spec (§3.5): the per-key flags bitset of the `kv`
package (not in this tree). Only the bits the embedded code inspects are
carried; the spec leaves the exact layout free. -/
structure KeyFlags where
  presumeKeyNotExists : Bool
  keyLocked : Bool
  needCheckExists : Bool
deriving DecidableEq

/-- The all-clear flags value a freshly materialized leaf carries. -/
def KeyFlags.zero : KeyFlags := ⟨false, false, false⟩

/-- Embeds `KeyFlags.HasPresumeKeyNotExists` of the `kv` package: tests the
`PresumeKeyNotExists` bit. -/
def KeyFlags.HasPresumeKeyNotExists (fl : KeyFlags) : Bool := fl.presumeKeyNotExists

/-- Modelled from the spec (§3.5): flag operations are ordered
additive/subtractive deltas; `kv.DelPresumeKeyNotExists` is the subtractive
delta used by `UnmarkPresumeKeyNotExists`. -/
inductive FlagsOp
  | SetPresumeKeyNotExists
  | DelPresumeKeyNotExists
  | SetKeyLocked
  | DelKeyLocked
deriving DecidableEq

/-- Apply one flag delta. -/
def applyFlagsOp (fl : KeyFlags) : FlagsOp → KeyFlags
  | FlagsOp.SetPresumeKeyNotExists => ⟨true, fl.keyLocked, fl.needCheckExists⟩
  | FlagsOp.DelPresumeKeyNotExists => ⟨false, fl.keyLocked, fl.needCheckExists⟩
  | FlagsOp.SetKeyLocked => ⟨fl.presumeKeyNotExists, true, fl.needCheckExists⟩
  | FlagsOp.DelKeyLocked => ⟨fl.presumeKeyNotExists, false, fl.needCheckExists⟩

/-- The flags view of the MemBuffer index: each leaf binds a key to its flags.
The full MemDB is not in this tree; this is the part `GetFlags`/`UpdateFlags`
observe, modelled from spec §4.D. -/
structure FlagsDB where
  leaves : List (Bytes × KeyFlags)
deriving DecidableEq

/-- Embeds `MemBuffer.GetFlags` (spec §4.D `get_flags`): `none` models the lookup
error when no leaf exists for the key. -/
def FlagsDB.GetFlags (db : FlagsDB) (k : Bytes) : Option KeyFlags :=
  lookupAssoc db.leaves k

/-- Embeds `MemBuffer.UpdateFlags` (spec §4.D `update_flags`): materialize a leaf if
needed (with all-clear flags), then apply each delta in order. -/
def FlagsDB.UpdateFlags (db : FlagsDB) (k : Bytes) (ops : List FlagsOp) : FlagsDB :=
  let old := match db.GetFlags k with
    | some fl => fl
    | none => KeyFlags.zero
  ⟨setAssoc db.leaves k (ops.foldl applyFlagsOp old)⟩

/-- Embeds `KVUnionStore.HasPresumeKeyNotExists` (union_store.go lines 141-147):
a flags-lookup error yields `false`, otherwise the bit is tested. -/
def HasPresumeKeyNotExists (db : FlagsDB) (k : Bytes) : Bool :=
  match db.GetFlags k with
  | none => false
  | some flags => flags.HasPresumeKeyNotExists

/-- Embeds `KVUnionStore.UnmarkPresumeKeyNotExists` (union_store.go lines 150-152):
applies the subtractive `DelPresumeKeyNotExists` delta. -/
def UnmarkPresumeKeyNotExists (db : FlagsDB) (k : Bytes) : FlagsDB :=
  db.UpdateFlags k [FlagsOp.DelPresumeKeyNotExists]

/-- Embeds `unlimitedSize`, the sentinel that disables a size limit (`math.MaxUint64`
in the memdb source, which is not in this tree). -/
def unlimitedSize : Nat := 2 ^ 64 - 1

/-- Embeds `KVUnionStore.SetEntrySizeLimit` (union_store.go lines 155-163): the pair
of limits forwarded to `MemBuffer.SetEntrySizeLimit`, with a zero argument
replaced by the unlimited sentinel. -/
def SetEntrySizeLimit (entryLimit bufferLimit : Nat) : Nat × Nat :=
  let entryLimit := if entryLimit = 0 then unlimitedSize else entryLimit
  let bufferLimit := if bufferLimit = 0 then unlimitedSize else bufferLimit
  (entryLimit, bufferLimit)

/-- Modelled from the spec (§4.F `entry_size_limit`): the MemBuffer `set` path
fails with `EntryTooLarge` when `len(key)+len(value)` exceeds the per-entry
limit; the sizes are compared as `uint64` values, hence the reduction
modulo `2^64`. -/
def entryTooLarge (entryLimit keyLen valLen : Nat) : Bool :=
  decide ((keyLen + valLen) % 2 ^ 64 > entryLimit)

/-- Modelled from the spec (§4.F `entry_size_limit`): the MemBuffer `set` path
fails with `TxnTooLarge` when the cumulative buffer bytes would exceed the
total limit; compared as `uint64` values. -/
def txnTooLarge (bufferLimit newTotal : Nat) : Bool :=
  decide (newTotal % 2 ^ 64 > bufferLimit)

/-- Error kind returned by an invalidated MemBuffer iterator (spec §7). -/
inductive UErr
  | iteratorInvalidated
deriving DecidableEq

/-- Modelled from the spec (§5, §8.1.9): the MemBuffer index carries a
generation counter; its iterator implementation is not in this tree. Only
the generation and the ordered entries matter to the iterator contract. -/
structure GenDB where
  gen : Nat
  entries : List (Bytes × Bytes)
deriving DecidableEq

/-- The mutating operations the spec lists as invalidating iterators:
`set/delete/update_flags/cleanup/release/revert`. -/
inductive MutOp
  | setKV (k v : Bytes)
  | deleteKV (k : Bytes)
  | updateFlagsKV (k : Bytes)
  | cleanupStage
  | releaseStage
  | revertCheckpoint
deriving DecidableEq

/-- Modelled from the spec: every mutating operation bumps the index
generation counter; set writes the value, delete writes a tombstone (§4.D). -/
def GenDB.applyMut (db : GenDB) : MutOp → GenDB
  | MutOp.setKV k v => ⟨db.gen + 1, setAssoc db.entries k v⟩
  | MutOp.deleteKV k => ⟨db.gen + 1, setAssoc db.entries k []⟩
  | MutOp.updateFlagsKV _ => ⟨db.gen + 1, db.entries⟩
  | MutOp.cleanupStage => ⟨db.gen + 1, db.entries⟩
  | MutOp.releaseStage => ⟨db.gen + 1, db.entries⟩
  | MutOp.revertCheckpoint => ⟨db.gen + 1, db.entries⟩

/-- A sequence of mutating operations applied in order. -/
def GenDB.applyMuts (db : GenDB) (ms : List MutOp) : GenDB :=
  ms.foldl GenDB.applyMut db

/-- An iterator handed out by `MemBuffer.Iter`/`IterReverse`: it records the
index generation at creation time together with its remaining items. -/
structure MemIter where
  gen : Nat
  items : List (Bytes × Bytes)
deriving DecidableEq

/-- Whether key `k` lies in the half-open range `[lower, upper)`; an empty
bound is unbounded (union_store.go interface contract). -/
def inKeyRange (lower upper k : Bytes) : Bool :=
  (decide (lower = []) || decide (bytesCmp lower k ≠ Ordering.gt)) &&
  (decide (upper = []) || decide (bytesCmp k upper = Ordering.lt))

/-- Embeds `MemBuffer.Iter` (union_store.go lines 197-204, spec §4.D `iter`): an
iterator over the entries within the bounds, stamped with the current index
generation. -/
def GenDB.mkIter (db : GenDB) (lower upper : Bytes) : MemIter :=
  ⟨db.gen, db.entries.filter (fun p => inKeyRange lower upper p.1)⟩

/-- Modelled from the spec: each use of the iterator first checks the stored
generation against the index generation and returns the deterministic
`IteratorInvalidated` error on a mismatch; otherwise it yields the next entry
(or `none` once exhausted) and the advanced iterator. -/
def iterNext (db : GenDB) (it : MemIter) :
    Except UErr (Option ((Bytes × Bytes) × MemIter)) :=
  if it.gen = db.gen then
    Except.ok (match it.items with
      | [] => none
      | e :: rest => some (e, ⟨it.gen, rest⟩))
  else Except.error UErr.iteratorInvalidated

/-- An ART leaf header (art_arena.go/`artLeaf`): key length as stored in the
`uint16` field, the flags word, the vlog head address, and the key bytes laid
out after the header. -/
structure artLeaf where
  klen : Nat
  leafFlags : Nat
  vAddr : Nat
  keyData : Bytes
deriving DecidableEq

/-- Contents of one arena region: raw bytes (nodes) or a leaf record. -/
inductive Cell
  | bytes (data : List Nat)
  | leafCell (lf : artLeaf)
deriving DecidableEq

/-- Arena addresses are opaque identifiers; `0` is the reserved `NullAddr`
sentinel and region `i` (counting from zero) has address `i + 1`. -/
def NullAddr : Nat := 0

/-- Embeds `MemdbArenaAddr.IsNull`. -/
def isNullAddr (addr : Nat) : Bool := addr = NullAddr

/-- The backing arena (`arena.MemdbArena`): an append-only store of regions
with stable addresses. -/
structure MemdbArena where
  regions : List Cell
deriving DecidableEq

/-- Embeds `MemdbArena.Alloc` with `align = true`-style zeroing: every call site in
art_arena.go passes `zero = true`, so the fresh region is zero bytes of the
requested size; the address is fresh and stable. -/
def MemdbArena.Alloc (a : MemdbArena) (size : Nat) : MemdbArena × Nat :=
  (⟨a.regions ++ [Cell.bytes (List.replicate size 0)]⟩, a.regions.length + 1)

/-- Embeds `MemdbArena.GetData`: the region stored at an address. -/
def MemdbArena.GetData (a : MemdbArena) (addr : Nat) : Cell :=
  a.regions.getD (addr - 1) (Cell.bytes [])

/-- Overwrite the region at an address (models writing through the pointer
returned by `GetData`). -/
def MemdbArena.setRegion (a : MemdbArena) (addr : Nat) (c : Cell) : MemdbArena :=
  ⟨a.regions.set (addr - 1) c⟩

/-- Modelled from the spec (§4.B): `sizeof(node4)`; the node structs live in
art_node.go, which is not in this tree; the claims depend only on each node
kind having a fixed size. -/
def node4size : Nat := 4

/-- Modelled from the spec (§4.B): `sizeof(node16)`. -/
def node16size : Nat := 16

/-- Modelled from the spec (§4.B): `sizeof(node48)`. -/
def node48size : Nat := 48

/-- Modelled from the spec (§4.B): `sizeof(node256)`. -/
def node256size : Nat := 256

/-- Modelled from the spec (§4.B): `nodeK.init()` leaves the node
zero-initialized ("always returns a zero-initialized node"). -/
def zeroNode (size : Nat) : Cell := Cell.bytes (List.replicate size 0)

/-- Embeds `sizeof(artLeaf)`, the leaf header size (art_leaf.go, not in this tree);
the key bytes are copied right after the header. -/
def leafSize : Nat := 16

/-- The node arena (`nodeArena` in art_arena.go): the backing arena plus one
free list per reusable node size. -/
structure nodeArena where
  arena : MemdbArena
  freeNode4 : List Nat
  freeNode16 : List Nat
  freeNode48 : List Nat
deriving DecidableEq

/-- Embeds `artAllocator` (art_arena.go); the vlog allocator is omitted, no embedded
operation touches it. -/
structure artAllocator where
  nodeAllocator : nodeArena
deriving DecidableEq

/-- Embeds `artAllocator.allocNode4` (art_arena.go lines 45-60): pop the most
recently freed node4 address if the free list is non-empty, else allocate a
fresh region of `node4size`; in both cases `init` zero-initializes the node. -/
def artAllocator.allocNode4 (f : artAllocator) : artAllocator × Nat :=
  let n := f.nodeAllocator
  if n.freeNode4.length > 0 then
    let addr := n.freeNode4.getLastD 0
    (⟨⟨n.arena.setRegion addr (zeroNode node4size),
       n.freeNode4.dropLast, n.freeNode16, n.freeNode48⟩⟩, addr)
  else
    let (na, addr) := n.arena.Alloc node4size
    (⟨⟨na.setRegion addr (zeroNode node4size),
       n.freeNode4, n.freeNode16, n.freeNode48⟩⟩, addr)

/-- Embeds `artAllocator.freeNode4` (art_arena.go lines 62-64): push the address on
the node4 free list. -/
def artAllocator.freeNode4 (f : artAllocator) (addr : Nat) : artAllocator :=
  let n := f.nodeAllocator
  ⟨⟨n.arena, n.freeNode4 ++ [addr], n.freeNode16, n.freeNode48⟩⟩

/-- Embeds `artAllocator.allocNode16` (art_arena.go lines 71-86). -/
def artAllocator.allocNode16 (f : artAllocator) : artAllocator × Nat :=
  let n := f.nodeAllocator
  if n.freeNode16.length > 0 then
    let addr := n.freeNode16.getLastD 0
    (⟨⟨n.arena.setRegion addr (zeroNode node16size),
       n.freeNode4, n.freeNode16.dropLast, n.freeNode48⟩⟩, addr)
  else
    let (na, addr) := n.arena.Alloc node16size
    (⟨⟨na.setRegion addr (zeroNode node16size),
       n.freeNode4, n.freeNode16, n.freeNode48⟩⟩, addr)

/-- Embeds `artAllocator.freeNode16` (art_arena.go lines 88-90). -/
def artAllocator.freeNode16 (f : artAllocator) (addr : Nat) : artAllocator :=
  let n := f.nodeAllocator
  ⟨⟨n.arena, n.freeNode4, n.freeNode16 ++ [addr], n.freeNode48⟩⟩

/-- Embeds `artAllocator.allocNode48` (art_arena.go lines 97-112). -/
def artAllocator.allocNode48 (f : artAllocator) : artAllocator × Nat :=
  let n := f.nodeAllocator
  if n.freeNode48.length > 0 then
    let addr := n.freeNode48.getLastD 0
    (⟨⟨n.arena.setRegion addr (zeroNode node48size),
       n.freeNode4, n.freeNode16, n.freeNode48.dropLast⟩⟩, addr)
  else
    let (na, addr) := n.arena.Alloc node48size
    (⟨⟨na.setRegion addr (zeroNode node48size),
       n.freeNode4, n.freeNode16, n.freeNode48⟩⟩, addr)

/-- Embeds `artAllocator.freeNode48` (art_arena.go lines 114-116). -/
def artAllocator.freeNode48 (f : artAllocator) (addr : Nat) : artAllocator :=
  let n := f.nodeAllocator
  ⟨⟨n.arena, n.freeNode4, n.freeNode16, n.freeNode48 ++ [addr]⟩⟩

/-- Embeds `artAllocator.allocNode256` (art_arena.go lines 123-132): no free list;
always a fresh zeroed region. -/
def artAllocator.allocNode256 (f : artAllocator) : artAllocator × Nat :=
  let n := f.nodeAllocator
  let (na, addr) := n.arena.Alloc node256size
  (⟨⟨na.setRegion addr (zeroNode node256size),
     n.freeNode4, n.freeNode16, n.freeNode48⟩⟩, addr)

/-- Embeds `artAllocator.allocLeaf` (art_arena.go lines 139-148): allocate
`leafSize + len(key)` bytes, set `klen` to `uint16(len(key))` (hence the
reduction modulo `2^16`), clear the flags, set the vlog head to `NullAddr`,
and copy the key verbatim after the header. -/
def artAllocator.allocLeaf (f : artAllocator) (key : Bytes) : artAllocator × Nat :=
  let n := f.nodeAllocator
  let size := leafSize + key.length
  let (na, addr) := n.arena.Alloc size
  let lf : artLeaf := ⟨key.length % 2 ^ 16, 0, NullAddr, key⟩
  (⟨⟨na.setRegion addr (Cell.leafCell lf),
     n.freeNode4, n.freeNode16, n.freeNode48⟩⟩, addr)

/-- Embeds `artAllocator.getLeaf` (art_arena.go lines 150-156): the null address
yields no leaf (nil) without touching arena storage; otherwise the stored
leaf record is read back (dereferencing a region that does not hold a leaf is
a caller bug, spec §4.A, modelled as `none`). -/
def artAllocator.getLeaf (f : artAllocator) (addr : Nat) : Option artLeaf :=
  if isNullAddr addr then none
  else match f.nodeAllocator.arena.GetData addr with
    | Cell.leafCell lf => some lf
    | Cell.bytes _ => none

/-- Free-list well-formedness: every freed address designates an existing
arena region (free lists only ever receive addresses returned by `Alloc`). -/
def nodeArenaWF (n : nodeArena) : Prop :=
  (∀ a ∈ n.freeNode4, 1 ≤ a ∧ a ≤ n.arena.regions.length) ∧
  (∀ a ∈ n.freeNode16, 1 ≤ a ∧ a ≤ n.arena.regions.length) ∧
  (∀ a ∈ n.freeNode48, 1 ≤ a ∧ a ≤ n.arena.regions.length)

/-- Embeds `kv.KeyRange`: a half-open key range `[StartKey, EndKey)`; an empty bound
is unbounded. -/
structure KeyRange where
  StartKey : Bytes
  EndKey : Bytes
deriving DecidableEq

/-- The `isLast` test of `Runner.RunOnRange` (range_task.go line 238): the
loaded boundary is empty (unbounded tail) or `endKey` is bounded and the
boundary already reaches it. -/
def isLastTask (rangeEndKey endKey : Bytes) : Bool :=
  decide (rangeEndKey.length = 0) ||
  (decide (endKey.length > 0) && decide (bytesCmp rangeEndKey endKey ≠ Ordering.lt))

/-- The dispatch loop of `Runner.RunOnRange` (range_task.go lines 204-258),
as the sequence of tasks sent to the workers. `loadEnd` stands for
`BatchLoadRegionsFromKey(bo, key, s.regionsPerTask)`: the end key of about
`regionsPerTask` regions loaded from `key` (its failure and mid-loop
cancellation are not taken on this path). The loop has no intrinsic bound, so
`fuel` bounds it; `none` models a run that has not finished within `fuel`
iterations. -/
def dispatchLoop (loadEnd : Bytes → Bytes) (endKey : Bytes) :
    Nat → Bytes → Option (List KeyRange)
  | 0, _ => none
  | fuel + 1, key =>
    let rangeEndKey := loadEnd key
    if isLastTask rangeEndKey endKey then
      some [⟨key, endKey⟩]
    else
      match dispatchLoop loadEnd endKey fuel rangeEndKey with
      | none => none
      | some ts => some (⟨key, rangeEndKey⟩ :: ts)

/-- Embeds `Runner.RunOnRange` (range_task.go lines 156-258), reduced to the tasks it
dispatches: the empty-range guard (line 160) dispatches nothing, otherwise the
loop partitions the range. -/
def RunOnRangeTasks (loadEnd : Bytes → Bytes) (startKey endKey : Bytes)
    (fuel : Nat) : Option (List KeyRange) :=
  if endKey.length ≠ 0 ∧ bytesCmp startKey endKey ≠ Ordering.lt then
    some []
  else
    dispatchLoop loadEnd endKey fuel startKey

/-- Embeds `rangetask.TaskStat`. -/
structure TaskStat where
  CompletedRegions : Nat
  FailedRegions : Nat
deriving DecidableEq

/-- The observable outcome of one `rangeTaskWorker.run`: the recorded error,
whether this worker invoked `cancel`, how many tasks its handler processed,
and the accumulated region counters. -/
structure WorkerState where
  err : Option GoErr
  cancelled : Bool
  handled : Nat
  completed : Nat
  failed : Nat
deriving DecidableEq

/-- Embeds `rangeTaskWorker.run` (range_task.go lines 330-358) on the list of tasks
this worker receives from the channel. The shared context is abstracted by
`done`: `done i` tells whether the context was already cancelled when the
worker reached the top of its `i`-th loop iteration (in Go this is decided by
the interleaving with the other workers). A done context records `ctx.Err()`
and stops; a handler error is recorded, `cancel()` is invoked, and the loop
breaks; otherwise the counters accumulate and the loop continues. -/
def rangeTaskWorkerRun (handler : KeyRange → TaskStat × Option GoErr)
    (done : Nat → Bool) : List KeyRange → Nat → WorkerState
  | [], _ => ⟨none, false, 0, 0, 0⟩
  | r :: rs, i =>
    if done i then ⟨some GoErr.contextCanceled, false, 0, 0, 0⟩
    else
      let res := handler r
      match res.2 with
      | some e => ⟨some e, true, 1, res.1.CompletedRegions, res.1.FailedRegions⟩
      | none =>
        let st := rangeTaskWorkerRun handler done rs (i + 1)
        ⟨st.err, st.cancelled, st.handled + 1,
         res.1.CompletedRegions + st.completed,
         res.1.FailedRegions + st.failed⟩

/-- The final scan of `Runner.RunOnRange` (range_task.go lines 263-275): the
error of the first worker, in slice order, whose recorded error is non-nil;
nil when every worker finished clean. -/
def collectWorkerErr : List WorkerState → Option GoErr
  | [] => none
  | w :: ws =>
    match w.err with
    | some e => some e
    | none => collectWorkerErr ws

theorem bytesCmp_eq_iff : ∀ a b : Bytes, bytesCmp a b = Ordering.eq ↔ a = b
  | [], [] => by simp [bytesCmp]
  | [], _ :: _ => by simp [bytesCmp]
  | _ :: _, [] => by simp [bytesCmp]
  | a :: as, b :: bs => by
    simp only [bytesCmp]
    split_ifs with h1 h2
    · constructor
      · intro h; exact absurd h (by decide)
      · intro h; injection h with hab _; omega
    · constructor
      · intro h; exact absurd h (by decide)
      · intro h; injection h with hab _; omega
    · have hab : a = b := by omega
      subst hab
      rw [bytesCmp_eq_iff as bs]
      constructor
      · intro h; rw [h]
      · intro h; injection h

theorem bytesCmp_gt_iff_lt : ∀ a b : Bytes, bytesCmp a b = Ordering.gt ↔ bytesCmp b a = Ordering.lt
  | [], [] => by simp [bytesCmp]
  | [], _ :: _ => by simp [bytesCmp]
  | _ :: _, [] => by simp [bytesCmp]
  | a :: as, b :: bs => by
    simp only [bytesCmp]
    rcases Nat.lt_trichotomy a b with h | h | h
    · simp [h, Nat.not_lt_of_lt h, Nat.ne_of_lt h]
    · subst h
      simp [Nat.lt_irrefl]
      exact bytesCmp_gt_iff_lt as bs
    · simp [h, Nat.not_lt_of_lt h, Nat.ne_of_lt h]

theorem bytesCmp_lt_trans : ∀ a b d : Bytes,
    bytesCmp a b = Ordering.lt → bytesCmp b d = Ordering.lt → bytesCmp a d = Ordering.lt
  | [], [], _, h1, _ => by simp [bytesCmp] at h1
  | [], _ :: _, [], _, h2 => by simp [bytesCmp] at h2
  | [], _ :: _, _ :: _, _, _ => by simp [bytesCmp]
  | _ :: _, [], _, h1, _ => by simp [bytesCmp] at h1
  | _ :: _, _ :: _, [], _, h2 => by simp [bytesCmp] at h2
  | a :: as, b :: bs, d :: ds, h1, h2 => by
    simp only [bytesCmp] at h1 h2 ⊢
    split_ifs at h1 with hab hba
    · split_ifs at h2 with hbd hdb
      · have had : a < d := by omega
        simp [had]
      · have had : a < d := by omega
        simp [had]
    · split_ifs at h2 with hbd hdb
      · have had : a < d := by omega
        simp [had]
      · have had1 : ¬ a < d := by omega
        have had2 : ¬ d < a := by omega
        simp only [had1, had2, if_false]
        exact bytesCmp_lt_trans as bs ds h1 h2

theorem dirCmp_eq_iff (reverse : Bool) (a b : Bytes) :
    dirCmp reverse a b = Ordering.eq ↔ a = b := by
  cases reverse
  · simp [dirCmp, bytesCmp_eq_iff]
  · simp [dirCmp, bytesCmp_eq_iff]
    exact eq_comm

theorem dirCmp_gt_iff_lt (reverse : Bool) (a b : Bytes) :
    dirCmp reverse a b = Ordering.gt ↔ dirCmp reverse b a = Ordering.lt := by
  cases reverse <;> simp [dirCmp, bytesCmp_gt_iff_lt]

theorem dirCmp_lt_trans (reverse : Bool) (a b d : Bytes)
    (h1 : dirCmp reverse a b = Ordering.lt) (h2 : dirCmp reverse b d = Ordering.lt) :
    dirCmp reverse a d = Ordering.lt := by
  cases reverse
  · simp only [dirCmp, if_false] at *
    exact bytesCmp_lt_trans a b d h1 h2
  · simp only [dirCmp, if_true] at *
    exact bytesCmp_lt_trans d b a h2 h1

/-- Claim C1: `KVUnionStore.Get` consults the snapshot exactly when the
MemBuffer lookup fails with the NotExist error kind, returns any other buffer
error unchanged, and reports an empty final value as nil with `ErrNotExist`
(an empty value is a tombstone). -/
theorem KVUnionStoreGet_characterization : ∀ b s : GetResult,
    (IsErrNotFound b.err = true → KVUnionStoreGet b s = finishGet s)
    ∧ (IsErrNotFound b.err = false → KVUnionStoreGet b s = finishGet b)
    ∧ (∀ e, b.err = some e → IsErrNotFound b.err = false → KVUnionStoreGet b s = b)
    ∧ (∀ r : GetResult, r.err = none → r.val = [] →
        finishGet r = ⟨[], some GoErr.notExist⟩)
    ∧ (∀ r : GetResult, r.err = none → r.val ≠ [] → finishGet r = r) := by
  intro b s
  refine ⟨?_, ?_, ?_, ?_, ?_⟩
  · intro h; simp [KVUnionStoreGet, h]
  · intro h; simp [KVUnionStoreGet, h]
  · intro e he h
    simp only [KVUnionStoreGet, h, Bool.false_eq_true, if_false]
    simp [finishGet, he]
  · intro r h1 h2
    obtain ⟨v, e⟩ := r
    simp at h1 h2
    subst h1; subst h2
    simp [finishGet]
  · intro r h1 h2
    obtain ⟨v, e⟩ := r
    simp at h1 h2
    subst h1
    simp [finishGet, h2]

/-- Witness for C1 at concrete inputs: a NotExist buffer error falls through
to the snapshot, a distinct buffer error is returned unchanged, and an empty
snapshot value surfaces as `ErrNotExist`. -/
theorem KVUnionStoreGet_characterization_witness :
    KVUnionStoreGet ⟨[], some GoErr.notExist⟩ ⟨[7], none⟩ = ⟨[7], none⟩
    ∧ KVUnionStoreGet ⟨[3], some (GoErr.other 0)⟩ ⟨[7], none⟩
        = ⟨[3], some (GoErr.other 0)⟩
    ∧ KVUnionStoreGet ⟨[], some GoErr.notExist⟩ ⟨[], none⟩
        = ⟨[], some GoErr.notExist⟩ := by
  have h1 := KVUnionStoreGet_characterization ⟨[], some GoErr.notExist⟩ ⟨[7], none⟩
  have h2 := KVUnionStoreGet_characterization ⟨[3], some (GoErr.other 0)⟩ ⟨[7], none⟩
  have h3 := KVUnionStoreGet_characterization ⟨[], some GoErr.notExist⟩ ⟨[], none⟩
  refine ⟨?_, ?_, ?_⟩
  · exact (h1.1 (by decide)).trans (h1.2.2.2.2 ⟨[7], none⟩ rfl (by decide))
  · exact h2.2.2.1 (GoErr.other 0) rfl (by decide)
  · exact (h3.1 (by decide)).trans (h3.2.2.2.1 ⟨[], none⟩ rfl rfl)

/-- Claim C6: `SetEntrySizeLimit` forwards the given limits with a zero
argument replaced by the unlimited sentinel, and under the sentinel the
corresponding size check can never fire. -/
theorem SetEntrySizeLimit_zero_disables : ∀ entryLimit bufferLimit : Nat,
    SetEntrySizeLimit entryLimit bufferLimit =
      (if entryLimit = 0 then unlimitedSize else entryLimit,
       if bufferLimit = 0 then unlimitedSize else bufferLimit)
    ∧ (∀ keyLen valLen,
        entryTooLarge (SetEntrySizeLimit 0 bufferLimit).1 keyLen valLen = false)
    ∧ (∀ newTotal,
        txnTooLarge (SetEntrySizeLimit entryLimit 0).2 newTotal = false) := by
  intro e b
  refine ⟨rfl, ?_, ?_⟩
  · intro kl vl
    have h1 : (SetEntrySizeLimit 0 b).1 = unlimitedSize := by
      simp [SetEntrySizeLimit]
    rw [h1]
    simp only [entryTooLarge, unlimitedSize, decide_eq_false_iff_not, not_lt]
    have : (kl + vl) % 2 ^ 64 < 2 ^ 64 := Nat.mod_lt _ (by norm_num)
    omega
  · intro t
    have h2 : (SetEntrySizeLimit e 0).2 = unlimitedSize := by
      simp [SetEntrySizeLimit]
    rw [h2]
    simp only [txnTooLarge, unlimitedSize, decide_eq_false_iff_not, not_lt]
    have : t % 2 ^ 64 < 2 ^ 64 := Nat.mod_lt _ (by norm_num)
    omega

/-- Claim C9: `HasPresumeKeyNotExists` is true exactly when the flags lookup
succeeds with the `PresumeKeyNotExists` bit set, is false (not an error) when
no leaf exists, and is false after `UnmarkPresumeKeyNotExists`. -/
theorem HasPresumeKeyNotExists_spec : ∀ (db : FlagsDB) (k : Bytes),
    (HasPresumeKeyNotExists db k = true ↔
      ∃ fl, db.GetFlags k = some fl ∧ fl.HasPresumeKeyNotExists = true)
    ∧ (db.GetFlags k = none → HasPresumeKeyNotExists db k = false)
    ∧ HasPresumeKeyNotExists (UnmarkPresumeKeyNotExists db k) k = false := by
  intro db k
  have hset : ∀ (l : List (Bytes × KeyFlags)) (fl : KeyFlags),
      lookupAssoc (setAssoc l k fl) k = some fl := by
    intro l fl
    induction l with
    | nil => simp [setAssoc, lookupAssoc]
    | cons p rest ih =>
      obtain ⟨k0, v0⟩ := p
      by_cases hk : k0 = k
      · simp [setAssoc, hk, lookupAssoc]
      · simp [setAssoc, hk, lookupAssoc, ih]
  refine ⟨?_, ?_, ?_⟩
  · cases h : db.GetFlags k with
    | none => simp [HasPresumeKeyNotExists, h]
    | some fl => simp [HasPresumeKeyNotExists, h, KeyFlags.HasPresumeKeyNotExists]
  · intro h; simp [HasPresumeKeyNotExists, h]
  · simp only [UnmarkPresumeKeyNotExists, FlagsDB.UpdateFlags,
      HasPresumeKeyNotExists, FlagsDB.GetFlags, hset, List.foldl_cons,
      List.foldl_nil, applyFlagsOp, KeyFlags.HasPresumeKeyNotExists]

/-- Witness for C9: on the empty buffer the lookup misses and yields false;
after set-then-unmark the flag reads false again. -/
theorem HasPresumeKeyNotExists_spec_witness :
    HasPresumeKeyNotExists ⟨[]⟩ [7] = false
    ∧ HasPresumeKeyNotExists
        (UnmarkPresumeKeyNotExists
          (FlagsDB.UpdateFlags ⟨[]⟩ [7] [FlagsOp.SetPresumeKeyNotExists]) [7]) [7]
      = false := by
  refine ⟨?_, ?_⟩
  · exact (HasPresumeKeyNotExists_spec ⟨[]⟩ [7]).2.1 (by decide)
  · exact (HasPresumeKeyNotExists_spec
      (FlagsDB.UpdateFlags ⟨[]⟩ [7] [FlagsOp.SetPresumeKeyNotExists]) [7]).2.2

theorem applyMut_gen (db : GenDB) (m : MutOp) : (db.applyMut m).gen = db.gen + 1 := by
  cases m <;> rfl

theorem applyMuts_gen : ∀ (ms : List MutOp) (db : GenDB),
    (db.applyMuts ms).gen = db.gen + ms.length := by
  intro ms
  induction ms with
  | nil => intro db; rfl
  | cons m rest ih =>
    intro db
    have h : db.applyMuts (m :: rest) = (db.applyMut m).applyMuts rest := rfl
    rw [h, ih (db.applyMut m), applyMut_gen, List.length_cons]
    omega

/-- Claim C3: an iterator is stamped with the index generation at creation;
advancing it preserves the stamp; once any non-empty sequence of mutating
operations has run, every use of the iterator returns the deterministic
`IteratorInvalidated` error. -/
theorem iterNext_invalidated : ∀ (db : GenDB) (ms : List MutOp) (it : MemIter),
    (∀ lower upper, (db.mkIter lower upper).gen = db.gen)
    ∧ (∀ e it', iterNext db it = Except.ok (some (e, it')) → it'.gen = it.gen)
    ∧ (it.gen = db.gen → ms ≠ [] →
        iterNext (db.applyMuts ms) it = Except.error UErr.iteratorInvalidated) := by
  intro db ms it
  refine ⟨fun lower upper => rfl, ?_, ?_⟩
  · intro e it' h
    simp only [iterNext] at h
    split_ifs at h with hg
    · cases hit : it.items with
      | nil => rw [hit] at h; simp at h
      | cons x rest =>
        rw [hit] at h
        simp at h
        rw [← h.2]
  · intro hg hms
    have hlen : 0 < ms.length := List.length_pos.mpr hms
    have hgen := applyMuts_gen ms db
    simp only [iterNext, hg, hgen]
    have : ¬ db.gen = db.gen + ms.length := by omega
    simp [this]

/-- Witness for C3: a freshly created iterator errors after a cleanup ran. -/
theorem iterNext_invalidated_witness :
    iterNext (GenDB.applyMuts ⟨0, [([1], [2])]⟩ [MutOp.cleanupStage])
        (GenDB.mkIter ⟨0, [([1], [2])]⟩ [] [])
      = Except.error UErr.iteratorInvalidated := by
  exact (iterNext_invalidated ⟨0, [([1], [2])]⟩ [MutOp.cleanupStage]
    (GenDB.mkIter ⟨0, [([1], [2])]⟩ [] [])).2.2 rfl (by decide)

/-- Claim C10: `getLeaf` is total on the NULL sentinel: the null address
yields no leaf without touching arena storage, and a leaf is only ever
returned for a non-null address. -/
theorem getLeaf_null_safe : ∀ (f : artAllocator) (addr : Nat),
    (isNullAddr addr = true → f.getLeaf addr = none)
    ∧ (∀ lf, f.getLeaf addr = some lf → isNullAddr addr = false) := by
  intro f addr
  constructor
  · intro h; simp [artAllocator.getLeaf, h]
  · intro lf h
    cases hn : isNullAddr addr with
    | false => rfl
    | true =>
      rw [artAllocator.getLeaf, hn] at h
      simp at h

/-- Witness for C10: the null address yields no leaf on a concrete allocator,
and a concrete allocated leaf certifies its address is non-null. -/
theorem getLeaf_null_safe_witness :
    artAllocator.getLeaf ⟨⟨⟨[]⟩, [], [], []⟩⟩ NullAddr = none
    ∧ isNullAddr (artAllocator.allocLeaf ⟨⟨⟨[]⟩, [], [], []⟩⟩ [5]).2 = false := by
  constructor
  · exact (getLeaf_null_safe ⟨⟨⟨[]⟩, [], [], []⟩⟩ NullAddr).1 rfl
  · exact (getLeaf_null_safe (artAllocator.allocLeaf ⟨⟨⟨[]⟩, [], [], []⟩⟩ [5]).1
      (artAllocator.allocLeaf ⟨⟨⟨[]⟩, [], [], []⟩⟩ [5]).2).2
      ⟨1, 0, NullAddr, [5]⟩ (by decide)

theorem getD_set_self {α : Type} (d : α) :
    ∀ (l : List α) (i : Nat) (c : α), i < l.length → (l.set i c).getD i d = c := by
  intro l
  induction l with
  | nil => intro i c h; simp at h
  | cons x xs ih =>
    intro i c h
    cases i with
    | zero => rfl
    | succ n =>
      have hn : n < xs.length := by simpa using h
      have : (x :: xs).set (n + 1) c = x :: xs.set n c := rfl
      rw [this]
      simpa using ih n c hn

theorem getLastD_mem {α : Type} :
    ∀ (l : List α) (d : α), l ≠ [] → l.getLastD d ∈ l := by
  intro l
  induction l with
  | nil => intro d h; exact absurd rfl h
  | cons x xs ih =>
    intro d _
    cases hx : xs with
    | nil => subst hx; simp [List.getLastD]
    | cons y ys =>
      subst hx
      rw [List.getLastD_cons]
      exact List.mem_cons_of_mem x (ih x (by simp))

theorem getLastD_append_single {α : Type} :
    ∀ (l : List α) (d a : α), (l ++ [a]).getLastD d = a := by
  intro l
  induction l with
  | nil => intro d a; rfl
  | cons x xs ih =>
    intro d a
    rw [List.cons_append, List.getLastD_cons]
    exact ih x a

theorem dropLast_append_single {α : Type} (l : List α) (a : α) :
    (l ++ [a]).dropLast = l := by
  simp

/-- After `setRegion` at an in-range address, `GetData` reads back the new
cell. -/
theorem GetData_setRegion_self (arn : MemdbArena) (addr : Nat) (c : Cell)
    (h1 : 1 ≤ addr) (h2 : addr ≤ arn.regions.length) :
    (arn.setRegion addr c).GetData addr = c := by
  have : addr - 1 < arn.regions.length := by omega
  exact getD_set_self (Cell.bytes []) arn.regions (addr - 1) c this

theorem alloc_reuse_zero (arn : MemdbArena) (free : List Nat) (size : Nat)
    (hwf : ∀ a ∈ free, 1 ≤ a ∧ a ≤ arn.regions.length) (hne : free ≠ []) :
    (arn.setRegion (free.getLastD 0) (zeroNode size)).GetData (free.getLastD 0)
      = zeroNode size := by
  obtain ⟨h1, h2⟩ := hwf _ (getLastD_mem free 0 hne)
  exact GetData_setRegion_self _ _ _ h1 h2

theorem alloc_fresh_zero (arn : MemdbArena) (size : Nat) :
    (((MemdbArena.mk (arn.regions ++ [Cell.bytes (List.replicate size 0)])).setRegion
        (arn.regions.length + 1) (zeroNode size)).GetData
      (arn.regions.length + 1)) = zeroNode size := by
  refine GetData_setRegion_self _ _ _ (by omega) ?_
  simp

/-- Claim C4: each of `allocNode4`/`allocNode16`/`allocNode48` pops the most
recently freed address of its size when that free list is non-empty and
otherwise allocates a fresh arena region of the node's size; the returned node
is zero-initialized either way; `allocNode256` never consults a free list and
always returns a fresh zeroed region. -/
theorem allocNode_free_list_spec : ∀ f : artAllocator, nodeArenaWF f.nodeAllocator →
    ((f.nodeAllocator.freeNode4 ≠ [] →
        f.allocNode4.2 = f.nodeAllocator.freeNode4.getLastD 0
        ∧ f.allocNode4.1.nodeAllocator.freeNode4 = f.nodeAllocator.freeNode4.dropLast
        ∧ f.allocNode4.1.nodeAllocator.arena.GetData f.allocNode4.2 = zeroNode node4size)
    ∧ (f.nodeAllocator.freeNode4 = [] →
        f.allocNode4.2 = f.nodeAllocator.arena.regions.length + 1
        ∧ f.allocNode4.1.nodeAllocator.arena.GetData f.allocNode4.2 = zeroNode node4size)
    ∧ (∀ a, (artAllocator.allocNode4 (f.freeNode4 a)).2 = a))
    ∧ ((f.nodeAllocator.freeNode16 ≠ [] →
        f.allocNode16.2 = f.nodeAllocator.freeNode16.getLastD 0
        ∧ f.allocNode16.1.nodeAllocator.freeNode16 = f.nodeAllocator.freeNode16.dropLast
        ∧ f.allocNode16.1.nodeAllocator.arena.GetData f.allocNode16.2 = zeroNode node16size)
    ∧ (f.nodeAllocator.freeNode16 = [] →
        f.allocNode16.2 = f.nodeAllocator.arena.regions.length + 1
        ∧ f.allocNode16.1.nodeAllocator.arena.GetData f.allocNode16.2 = zeroNode node16size)
    ∧ (∀ a, (artAllocator.allocNode16 (f.freeNode16 a)).2 = a))
    ∧ ((f.nodeAllocator.freeNode48 ≠ [] →
        f.allocNode48.2 = f.nodeAllocator.freeNode48.getLastD 0
        ∧ f.allocNode48.1.nodeAllocator.freeNode48 = f.nodeAllocator.freeNode48.dropLast
        ∧ f.allocNode48.1.nodeAllocator.arena.GetData f.allocNode48.2 = zeroNode node48size)
    ∧ (f.nodeAllocator.freeNode48 = [] →
        f.allocNode48.2 = f.nodeAllocator.arena.regions.length + 1
        ∧ f.allocNode48.1.nodeAllocator.arena.GetData f.allocNode48.2 = zeroNode node48size)
    ∧ (∀ a, (artAllocator.allocNode48 (f.freeNode48 a)).2 = a))
    ∧ (f.allocNode256.2 = f.nodeAllocator.arena.regions.length + 1
      ∧ f.allocNode256.1.nodeAllocator.arena.GetData f.allocNode256.2 = zeroNode node256size
      ∧ f.allocNode256.1.nodeAllocator.freeNode4 = f.nodeAllocator.freeNode4
      ∧ f.allocNode256.1.nodeAllocator.freeNode16 = f.nodeAllocator.freeNode16
      ∧ f.allocNode256.1.nodeAllocator.freeNode48 = f.nodeAllocator.freeNode48) := by
  intro f hwf
  obtain ⟨hwf4, hwf16, hwf48⟩ := hwf
  refine ⟨⟨?_, ?_, ?_⟩, ⟨?_, ?_, ?_⟩, ⟨?_, ?_, ?_⟩, ?_⟩
  · intro hne
    have hpos : 0 < f.nodeAllocator.freeNode4.length := List.length_pos.mpr hne
    simp only [artAllocator.allocNode4]
    rw [if_pos hpos]
    exact ⟨rfl, rfl, alloc_reuse_zero _ _ _ hwf4 hne⟩
  · intro he
    have hneg : ¬ 0 < f.nodeAllocator.freeNode4.length := by simp [he]
    simp only [artAllocator.allocNode4]
    rw [if_neg hneg]
    simp only [MemdbArena.Alloc]
    exact ⟨by trivial, alloc_fresh_zero _ _⟩
  · intro a
    have hpos : 0 < (f.nodeAllocator.freeNode4 ++ [a]).length := by simp
    simp only [artAllocator.freeNode4, artAllocator.allocNode4]
    rw [if_pos hpos]
    exact getLastD_append_single _ 0 a
  · intro hne
    have hpos : 0 < f.nodeAllocator.freeNode16.length := List.length_pos.mpr hne
    simp only [artAllocator.allocNode16]
    rw [if_pos hpos]
    exact ⟨rfl, rfl, alloc_reuse_zero _ _ _ hwf16 hne⟩
  · intro he
    have hneg : ¬ 0 < f.nodeAllocator.freeNode16.length := by simp [he]
    simp only [artAllocator.allocNode16]
    rw [if_neg hneg]
    simp only [MemdbArena.Alloc]
    exact ⟨by trivial, alloc_fresh_zero _ _⟩
  · intro a
    have hpos : 0 < (f.nodeAllocator.freeNode16 ++ [a]).length := by simp
    simp only [artAllocator.freeNode16, artAllocator.allocNode16]
    rw [if_pos hpos]
    exact getLastD_append_single _ 0 a
  · intro hne
    have hpos : 0 < f.nodeAllocator.freeNode48.length := List.length_pos.mpr hne
    simp only [artAllocator.allocNode48]
    rw [if_pos hpos]
    exact ⟨rfl, rfl, alloc_reuse_zero _ _ _ hwf48 hne⟩
  · intro he
    have hneg : ¬ 0 < f.nodeAllocator.freeNode48.length := by simp [he]
    simp only [artAllocator.allocNode48]
    rw [if_neg hneg]
    simp only [MemdbArena.Alloc]
    exact ⟨by trivial, alloc_fresh_zero _ _⟩
  · intro a
    have hpos : 0 < (f.nodeAllocator.freeNode48 ++ [a]).length := by simp
    simp only [artAllocator.freeNode48, artAllocator.allocNode48]
    rw [if_pos hpos]
    exact getLastD_append_single _ 0 a
  · simp only [artAllocator.allocNode256, MemdbArena.Alloc]
    exact ⟨by trivial, alloc_fresh_zero _ _, by trivial, by trivial, by trivial⟩

/-- Reading back a leaf right after `allocLeaf`: the stored record has
`klen = len(key) mod 2^16`, zero flags, a NULL vlog head, and the key. -/
theorem getLeaf_allocLeaf (f : artAllocator) (key : Bytes) :
    (f.allocLeaf key).1.getLeaf (f.allocLeaf key).2
      = some ⟨key.length % 2 ^ 16, 0, NullAddr, key⟩ := by
  have haddr : (f.allocLeaf key).2 = f.nodeAllocator.arena.regions.length + 1 := rfl
  have harena : (f.allocLeaf key).1.nodeAllocator.arena
      = (MemdbArena.mk (f.nodeAllocator.arena.regions ++
          [Cell.bytes (List.replicate (leafSize + key.length) 0)])).setRegion
        (f.nodeAllocator.arena.regions.length + 1)
        (Cell.leafCell ⟨key.length % 2 ^ 16, 0, NullAddr, key⟩) := rfl
  have hget := GetData_setRegion_self
    (MemdbArena.mk (f.nodeAllocator.arena.regions ++
      [Cell.bytes (List.replicate (leafSize + key.length) 0)]))
    (f.nodeAllocator.arena.regions.length + 1)
    (Cell.leafCell ⟨key.length % 2 ^ 16, 0, NullAddr, key⟩) (by omega) (by simp)
  simp only [artAllocator.getLeaf, haddr, harena, hget]
  rw [if_neg (by simp [isNullAddr, NullAddr])]

/-- Claim C5 (amended): every leaf returned by `allocLeaf(key)` is a
flags-only leaf — its vlog head equals `NullAddr`, its flags bitmask is 0, the
key bytes are stored verbatim after the header — and its stored key length is
`len(key)` reduced modulo `2^16` (the `uint16` field width), which equals
`len(key)` whenever `len(key) < 65536`. -/
theorem allocLeaf_spec : ∀ (f : artAllocator) (key : Bytes),
    (f.allocLeaf key).1.getLeaf (f.allocLeaf key).2
      = some ⟨key.length % 2 ^ 16, 0, NullAddr, key⟩
    ∧ (f.allocLeaf key).2 = f.nodeAllocator.arena.regions.length + 1
    ∧ (key.length < 2 ^ 16 →
        ∃ lf, (f.allocLeaf key).1.getLeaf (f.allocLeaf key).2 = some lf
          ∧ lf.klen = key.length ∧ lf.leafFlags = 0 ∧ lf.vAddr = NullAddr
          ∧ lf.keyData = key) := by
  intro f key
  refine ⟨getLeaf_allocLeaf f key, rfl, ?_⟩
  intro hlt
  exact ⟨⟨key.length % 2 ^ 16, 0, NullAddr, key⟩, getLeaf_allocLeaf f key,
    Nat.mod_eq_of_lt hlt, rfl, rfl, rfl⟩

/-- Witness for C5 at a concrete input: the leaf allocated for the one-byte
key `[5]` reads back with klen 1, flags 0, a NULL vlog head, and the key. -/
theorem allocLeaf_spec_witness :
    ∃ lf, (artAllocator.getLeaf
        (artAllocator.allocLeaf ⟨⟨⟨[]⟩, [], [], []⟩⟩ [5]).1
        (artAllocator.allocLeaf ⟨⟨⟨[]⟩, [], [], []⟩⟩ [5]).2) = some lf
      ∧ lf.klen = ([5] : Bytes).length ∧ lf.leafFlags = 0 ∧ lf.vAddr = NullAddr
      ∧ lf.keyData = [5] := by
  exact (allocLeaf_spec ⟨⟨⟨[]⟩, [], [], []⟩⟩ [5]).2.2 (by decide)

/-- Counterexample to C5 as stated: for a key of 65536 bytes, the stored key
length is 0 (the `uint16` cast truncates), not `len(key) = 65536`. -/
theorem allocLeaf_klen_truncates :
    ((artAllocator.getLeaf
        (artAllocator.allocLeaf ⟨⟨⟨[]⟩, [], [], []⟩⟩ (List.replicate 65536 0)).1
        (artAllocator.allocLeaf ⟨⟨⟨[]⟩, [], [], []⟩⟩ (List.replicate 65536 0)).2).map
      artLeaf.klen) = some 0
    ∧ (List.replicate (65536 : Nat) (0 : Nat)).length = 65536
    ∧ (0 : Nat) ≠ 65536 := by
  refine ⟨?_, by rw [List.length_replicate], by omega⟩
  rw [getLeaf_allocLeaf, List.length_replicate]
  norm_num [Option.map_some]

/-- Witness for C4 on concrete allocators: with free list `[1]` over a
one-region arena, `allocNode4` returns address 1 with a zeroed node and pops
the list; on the empty allocator `allocNode256` returns the fresh address 1. -/
theorem allocNode_free_list_spec_witness :
    (artAllocator.allocNode4 ⟨⟨⟨[Cell.bytes [7, 7, 7, 7]]⟩, [1], [], []⟩⟩).2
        = List.getLastD [1] 0
    ∧ (artAllocator.allocNode4
        ⟨⟨⟨[Cell.bytes [7, 7, 7, 7]]⟩, [1], [], []⟩⟩).1.nodeAllocator.arena.GetData
        (artAllocator.allocNode4 ⟨⟨⟨[Cell.bytes [7, 7, 7, 7]]⟩, [1], [], []⟩⟩).2
        = zeroNode node4size
    ∧ (artAllocator.allocNode256 ⟨⟨⟨[]⟩, [], [], []⟩⟩).2 = 1 := by
  have h1 := allocNode_free_list_spec ⟨⟨⟨[Cell.bytes [7, 7, 7, 7]]⟩, [1], [], []⟩⟩
    (by refine ⟨?_, ?_, ?_⟩ <;> decide)
  have h2 := allocNode_free_list_spec ⟨⟨⟨[]⟩, [], [], []⟩⟩
    (by refine ⟨?_, ?_, ?_⟩ <;> decide)
  exact ⟨(h1.1.1 (by decide)).1, (h1.1.1 (by decide)).2.2, h2.2.2.2.1⟩

theorem dispatchLoop_spec (loadEnd : Bytes → Bytes) (endKey : Bytes) :
    ∀ (fuel : Nat) (key : Bytes) (ts : List KeyRange),
      dispatchLoop loadEnd endKey fuel key = some ts →
      ts ≠ []
      ∧ (∃ t0, ts.head? = some t0 ∧ t0.StartKey = key)
      ∧ (∃ tl, ts.getLast? = some tl ∧ tl.EndKey = endKey)
      ∧ List.Chain' (fun a b => b.StartKey = a.EndKey) ts
      ∧ (∀ t ∈ ts.dropLast, t.EndKey = loadEnd t.StartKey
          ∧ isLastTask (loadEnd t.StartKey) endKey = false) := by
  intro fuel
  induction fuel with
  | zero => intro key ts h; simp [dispatchLoop] at h
  | succ n ih =>
    intro key ts h
    simp only [dispatchLoop] at h
    by_cases hl : isLastTask (loadEnd key) endKey
    · rw [if_pos hl] at h
      have hts : ts = [⟨key, endKey⟩] := by
        injection h with h'
        exact h'.symm
      subst hts
      refine ⟨by simp, ⟨⟨key, endKey⟩, rfl, rfl⟩, ⟨⟨key, endKey⟩, rfl, rfl⟩,
        by simp, by simp⟩
    · rw [if_neg hl] at h
      cases hrec : dispatchLoop loadEnd endKey n (loadEnd key) with
      | none => rw [hrec] at h; simp at h
      | some ts' =>
        rw [hrec] at h
        simp only [Option.some.injEq] at h
        subst h
        obtain ⟨hne, ⟨t0, ht0, ht0s⟩, ⟨tl, htl, htle⟩, hch, hdl⟩ := ih (loadEnd key) ts' hrec
        cases hts' : ts' with
        | nil => exact absurd hts' hne
        | cons u us =>
          subst hts'
          have hu : u.StartKey = loadEnd key := by
            rw [List.head?_cons] at ht0
            injection ht0 with h0
            rw [← h0] at ht0s
            exact ht0s
          refine ⟨by simp, ⟨⟨key, loadEnd key⟩, rfl, rfl⟩, ?_, ?_, ?_⟩
          · refine ⟨tl, ?_, htle⟩
            rw [List.getLast?_cons_cons]
            exact htl
          · exact List.Chain'.cons hu hch
          · intro t ht
            rw [List.dropLast_cons₂] at ht
            rcases List.mem_cons.mp ht with h1 | h2
            · subst h1
              exact ⟨rfl, by simpa using hl⟩
            · exact hdl t h2

/-- Claim C7: with all region loads succeeding, `RunOnRange` dispatches a
contiguous partition of `[startKey, endKey)`: the first task starts at
`startKey`, each subsequent task starts at the previous task's end, every
non-final task ends at the loaded region boundary (which did not yet reach
`endKey`), and the final task ends at `endKey`; a non-empty `endKey` with
`startKey >= endKey` dispatches nothing and returns nil. -/
theorem RunOnRange_partition : ∀ (loadEnd : Bytes → Bytes)
    (startKey endKey : Bytes) (fuel : Nat),
    (endKey ≠ [] → bytesCmp startKey endKey ≠ Ordering.lt →
      RunOnRangeTasks loadEnd startKey endKey fuel = some [])
    ∧ (∀ ts, RunOnRangeTasks loadEnd startKey endKey fuel = some ts →
        (endKey = [] ∨ bytesCmp startKey endKey = Ordering.lt) →
        ts ≠ []
        ∧ (∃ t0, ts.head? = some t0 ∧ t0.StartKey = startKey)
        ∧ (∃ tl, ts.getLast? = some tl ∧ tl.EndKey = endKey)
        ∧ List.Chain' (fun a b => b.StartKey = a.EndKey) ts
        ∧ (∀ t ∈ ts.dropLast, t.EndKey = loadEnd t.StartKey
            ∧ isLastTask (loadEnd t.StartKey) endKey = false)) := by
  intro loadEnd startKey endKey fuel
  constructor
  · intro h1 h2
    have hlen : endKey.length ≠ 0 := by
      intro hc
      exact h1 (List.length_eq_zero.mp hc)
    rw [RunOnRangeTasks, if_pos ⟨hlen, h2⟩]
  · intro ts hrun hcase
    have hguard : ¬ (endKey.length ≠ 0 ∧ bytesCmp startKey endKey ≠ Ordering.lt) := by
      rcases hcase with h | h
      · subst h; simp
      · intro ⟨_, hc⟩; exact hc h
    rw [RunOnRangeTasks, if_neg hguard] at hrun
    exact dispatchLoop_spec loadEnd endKey fuel startKey ts hrun

/-- Witness for C7: a concrete empty range ([1],[1]) dispatches nothing, and
a one-shot run over ([0],[1]) produces the single chained task ([0],[1]). -/
theorem RunOnRange_partition_witness :
    RunOnRangeTasks (fun _ => [1]) [1] [1] 5 = some []
    ∧ (∃ tl, [(⟨[0], [1]⟩ : KeyRange)].getLast? = some tl ∧ tl.EndKey = [1])
    ∧ List.Chain' (fun a b => b.StartKey = a.EndKey)
        [(⟨[0], [1]⟩ : KeyRange)] := by
  refine ⟨?_, ?_, ?_⟩
  · exact (RunOnRange_partition (fun _ => [1]) [1] [1] 5).1 (by decide) (by decide)
  · exact ((RunOnRange_partition (fun _ => [1]) [0] [1] 1).2
      [⟨[0], [1]⟩] (by decide) (Or.inr (by decide))).2.2.1
  · exact ((RunOnRange_partition (fun _ => [1]) [0] [1] 1).2
      [⟨[0], [1]⟩] (by decide) (Or.inr (by decide))).2.2.2.1

/-- Claim C8: a worker that observes a handler error records it, invokes
cancel, and stops right there; a worker whose loop top sees the cancelled
context stops without another handler call; error-free handlers under a
never-cancelled context leave the worker clean; and the final scan of
`RunOnRange` returns nil exactly on all-clean workers, otherwise the error of
the first (in slice order) failed worker. -/
theorem rangeTaskWorker_spec : ∀ (handler : KeyRange → TaskStat × Option GoErr)
    (done : Nat → Bool),
    (∀ (pre : List KeyRange) (r : KeyRange) (post : List KeyRange) (e : GoErr)
        (i : Nat),
      (∀ j, done j = false) → (∀ t ∈ pre, (handler t).2 = none) →
      (handler r).2 = some e →
      (rangeTaskWorkerRun handler done (pre ++ r :: post) i).err = some e
      ∧ (rangeTaskWorkerRun handler done (pre ++ r :: post) i).cancelled = true
      ∧ (rangeTaskWorkerRun handler done (pre ++ r :: post) i).handled
          = pre.length + 1)
    ∧ (∀ (l : List KeyRange) (i : Nat), done i = true → l ≠ [] →
        rangeTaskWorkerRun handler done l i
          = ⟨some GoErr.contextCanceled, false, 0, 0, 0⟩)
    ∧ (∀ (l : List KeyRange) (i : Nat),
        (∀ t ∈ l, (handler t).2 = none) → (∀ j, done j = false) →
        (rangeTaskWorkerRun handler done l i).err = none)
    ∧ (∀ ws : List WorkerState, (∀ w ∈ ws, w.err = none) →
        collectWorkerErr ws = none)
    ∧ (∀ (ws₁ : List WorkerState) (w : WorkerState) (ws₂ : List WorkerState),
        (∀ w' ∈ ws₁, w'.err = none) → w.err ≠ none →
        collectWorkerErr (ws₁ ++ w :: ws₂) = w.err) := by
  intro handler done
  refine ⟨?_, ?_, ?_, ?_, ?_⟩
  · intro pre
    induction pre with
    | nil =>
      intro r post e i hdone hpre hr
      simp only [List.nil_append, rangeTaskWorkerRun, hdone i, Bool.false_eq_true,
        if_false, hr]
      exact ⟨by trivial, by trivial, by trivial⟩
    | cons t pre ih =>
      intro r post e i hdone hpre hr
      have ht : (handler t).2 = none := hpre t (List.mem_cons_self t pre)
      have hpre' : ∀ t' ∈ pre, (handler t').2 = none :=
        fun t' ht' => hpre t' (List.mem_cons_of_mem t ht')
      obtain ⟨h1, h2, h3⟩ := ih r post e (i + 1) hdone hpre' hr
      simp only [List.cons_append, rangeTaskWorkerRun, hdone i, Bool.false_eq_true,
        if_false, ht]
      refine ⟨h1, h2, ?_⟩
      show (rangeTaskWorkerRun handler done (pre ++ r :: post) (i + 1)).handled + 1
          = (t :: pre).length + 1
      rw [h3, List.length_cons]
  · intro l i hdone hl
    cases l with
    | nil => exact absurd rfl hl
    | cons r rs => simp [rangeTaskWorkerRun, hdone]
  · intro l
    induction l with
    | nil => intro i _ _; rfl
    | cons t rest ih =>
      intro i hclean hdone
      have ht : (handler t).2 = none := hclean t (List.mem_cons_self t rest)
      have hrest : ∀ t' ∈ rest, (handler t').2 = none :=
        fun t' ht' => hclean t' (List.mem_cons_of_mem t ht')
      simp only [rangeTaskWorkerRun, hdone i, Bool.false_eq_true, if_false, ht]
      exact ih (i + 1) hrest hdone
  · intro ws hclean
    induction ws with
    | nil => rfl
    | cons w rest ih =>
      have hw : w.err = none := hclean w (List.mem_cons_self w rest)
      have hrest : ∀ w' ∈ rest, w'.err = none :=
        fun w' hw' => hclean w' (List.mem_cons_of_mem w hw')
      simp only [collectWorkerErr, hw]
      exact ih hrest
  · intro ws₁
    induction ws₁ with
    | nil =>
      intro w ws₂ _ hw
      cases he : w.err with
      | none => exact absurd he hw
      | some e => simp [collectWorkerErr, he]
    | cons w1 rest ih =>
      intro w ws₂ hclean hw
      have h1 : w1.err = none := hclean w1 (List.mem_cons_self w1 rest)
      have hrest : ∀ w' ∈ rest, w'.err = none :=
        fun w' hw' => hclean w' (List.mem_cons_of_mem w1 hw')
      simp only [List.cons_append, collectWorkerErr, h1]
      exact ih w ws₂ hrest hw

/-- Witness for C8 on concrete data: a single worker whose handler fails on
its only task records the error, cancels, and the runner scan returns it. -/
theorem rangeTaskWorker_spec_witness :
    (rangeTaskWorkerRun (fun _ => (⟨1, 0⟩, some (GoErr.other 3)))
        (fun _ => false) [⟨[], []⟩] 0).err = some (GoErr.other 3)
    ∧ (rangeTaskWorkerRun (fun _ => (⟨1, 0⟩, some (GoErr.other 3)))
        (fun _ => false) [⟨[], []⟩] 0).cancelled = true
    ∧ collectWorkerErr [⟨some (GoErr.other 3), true, 1, 1, 0⟩]
        = some (GoErr.other 3)
    ∧ collectWorkerErr [⟨none, false, 1, 1, 0⟩] = none := by
  have h := rangeTaskWorker_spec (fun _ => (⟨1, 0⟩, some (GoErr.other 3)))
    (fun _ => false)
  obtain ⟨hA, _, _, hD, hE⟩ := h
  obtain ⟨h1, h2, _⟩ := hA [] ⟨[], []⟩ [] (GoErr.other 3) 0
    (fun _ => rfl) (by intro t ht; simp at ht) rfl
  refine ⟨h1, h2, ?_, ?_⟩
  · exact hE [] ⟨some (GoErr.other 3), true, 1, 1, 0⟩ []
      (by intro w hw; simp at hw) (by simp)
  · exact hD [⟨none, false, 1, 1, 0⟩] (by intro w hw; simp at hw; rw [hw])

theorem lookupAssoc_eq_none {α : Type} :
    ∀ (l : List (Bytes × α)) (k : Bytes),
      (∀ p ∈ l, p.1 ≠ k) → lookupAssoc l k = none := by
  intro l k
  induction l with
  | nil => intro _; rfl
  | cons p rest ih =>
    intro h
    obtain ⟨k0, v0⟩ := p
    have hne : k0 ≠ k := h (k0, v0) (List.mem_cons_self _ _)
    simp only [lookupAssoc, if_neg hne]
    exact ih (fun q hq => h q (List.mem_cons_of_mem _ hq))

theorem mem_iff_lookupAssoc {α : Type} :
    ∀ (l : List (Bytes × α)), List.Pairwise (fun p q => p.1 ≠ q.1) l →
      ∀ (k : Bytes) (v : α), ((k, v) ∈ l ↔ lookupAssoc l k = some v) := by
  intro l
  induction l with
  | nil => intro _ k v; simp [lookupAssoc]
  | cons p rest ih =>
    intro hnd k v
    obtain ⟨k0, v0⟩ := p
    rw [List.pairwise_cons] at hnd
    obtain ⟨hhead, htail⟩ := hnd
    by_cases hk : k0 = k
    · subst hk
      have hl : lookupAssoc ((k0, v0) :: rest) k0 = some v0 := by
        simp [lookupAssoc]
      rw [hl, List.mem_cons]
      constructor
      · intro hm
        rcases hm with he | hm'
        · rw [Prod.mk.injEq] at he
          rw [he.2]
        · exact absurd rfl (hhead (k0, v) hm')
      · intro hv
        injection hv with hv'
        rw [← hv']
        exact Or.inl rfl
    · have hl : lookupAssoc ((k0, v0) :: rest) k = lookupAssoc rest k := by
        simp [lookupAssoc, hk]
      rw [hl, List.mem_cons, ← ih htail k v]
      constructor
      · intro hm
        rcases hm with he | hm'
        · rw [Prod.mk.injEq] at he
          exact absurd he.1.symm hk
        · exact hm'
      · intro hm'
        exact Or.inr hm'

theorem cmp_lt_ne (c : Bytes → Bytes → Ordering)
    (hEq : ∀ a b, c a b = Ordering.eq ↔ a = b) {a b : Bytes}
    (h : c a b = Ordering.lt) : a ≠ b := by
  intro hab
  rw [(hEq a b).mpr hab] at h
  exact absurd h (by decide)

theorem sortedKeys_nodup (c : Bytes → Bytes → Ordering)
    (hEq : ∀ a b, c a b = Ordering.eq ↔ a = b) :
    ∀ l, sortedKeys c l → List.Pairwise (fun p q => p.1 ≠ q.1) l := by
  intro l h
  exact h.imp (fun hlt => cmp_lt_ne c hEq hlt)

theorem sortedKeys_head_lt (c : Bytes → Bytes → Ordering) {x : Bytes × Bytes}
    {l : List (Bytes × Bytes)} (h : sortedKeys c (x :: l)) :
    ∀ p ∈ l, c x.1 p.1 = Ordering.lt :=
  (List.pairwise_cons.mp h).1

theorem sortedKeys_tail (c : Bytes → Bytes → Ordering) {x : Bytes × Bytes}
    {l : List (Bytes × Bytes)} (h : sortedKeys c (x :: l)) : sortedKeys c l :=
  (List.pairwise_cons.mp h).2

theorem lookupAssoc_none_of_lt_all (c : Bytes → Bytes → Ordering)
    (hEq : ∀ a b, c a b = Ordering.eq ↔ a = b)
    (l : List (Bytes × Bytes)) (k : Bytes)
    (h : ∀ p ∈ l, c k p.1 = Ordering.lt) : lookupAssoc l k = none := by
  refine lookupAssoc_eq_none l k ?_
  intro p hp hpk
  exact (cmp_lt_ne c hEq (h p hp)) hpk.symm

theorem sorted_head_lookup_tail_none (c : Bytes → Bytes → Ordering)
    (hEq : ∀ a b, c a b = Ordering.eq ↔ a = b) {x : Bytes × Bytes}
    {l : List (Bytes × Bytes)} (h : sortedKeys c (x :: l)) :
    lookupAssoc l x.1 = none :=
  lookupAssoc_none_of_lt_all c hEq l x.1 (sortedKeys_head_lt c h)

theorem lt_all_of_lt_head (c : Bytes → Bytes → Ordering)
    (hTrans : ∀ a b d, c a b = Ordering.lt → c b d = Ordering.lt →
      c a d = Ordering.lt)
    {x sk : Bytes} {sv : Bytes} {ss : List (Bytes × Bytes)}
    (hlt : c x sk = Ordering.lt) (hss : sortedKeys c ((sk, sv) :: ss)) :
    ∀ p ∈ (sk, sv) :: ss, c x p.1 = Ordering.lt := by
  intro p hp
  rcases List.mem_cons.mp hp with he | hm
  · rw [he]
    exact hlt
  · exact hTrans _ _ _ hlt (sortedKeys_head_lt c hss p hm)

theorem unionPairs_mem_sub (c : Bytes → Bytes → Ordering) :
    ∀ (bs ss : List (Bytes × Bytes)) (x : Bytes × Bytes),
      x ∈ unionPairs c bs ss → x ∈ bs ∨ x ∈ ss := by
  intro bs ss
  induction bs, ss using unionPairs.induct c with
  | case1 ss =>
    intro x h
    rw [show unionPairs c [] ss = ss from by simp [unionPairs]] at h
    exact Or.inr h
  | case2 bk bs ih =>
    intro x h
    rw [show unionPairs c ((bk, ([] : Bytes)) :: bs) [] = unionPairs c bs []
      from by simp [unionPairs]] at h
    rcases ih x h with h1 | h2
    · exact Or.inl (List.mem_cons_of_mem _ h1)
    · exact Or.inr h2
  | case3 bk bv bs hbv ih =>
    intro x h
    rw [show unionPairs c ((bk, bv) :: bs) []
        = (bk, bv) :: unionPairs c bs [] from by simp [unionPairs, hbv]] at h
    rcases List.mem_cons.mp h with he | hm
    · exact Or.inl (by rw [he]; exact List.mem_cons_self _ _)
    · rcases ih x hm with h1 | h2
      · exact Or.inl (List.mem_cons_of_mem _ h1)
      · exact Or.inr h2
  | case4 bk bs sk sv ss hlt ih =>
    intro x h
    rw [show unionPairs c ((bk, ([] : Bytes)) :: bs) ((sk, sv) :: ss)
        = unionPairs c bs ((sk, sv) :: ss) from by simp [unionPairs, hlt]] at h
    rcases ih x h with h1 | h2
    · exact Or.inl (List.mem_cons_of_mem _ h1)
    · exact Or.inr h2
  | case5 bk bv bs sk sv ss hlt hbv ih =>
    intro x h
    rw [show unionPairs c ((bk, bv) :: bs) ((sk, sv) :: ss)
        = (bk, bv) :: unionPairs c bs ((sk, sv) :: ss)
      from by simp [unionPairs, hlt, hbv]] at h
    rcases List.mem_cons.mp h with he | hm
    · exact Or.inl (by rw [he]; exact List.mem_cons_self _ _)
    · rcases ih x hm with h1 | h2
      · exact Or.inl (List.mem_cons_of_mem _ h1)
      · exact Or.inr h2
  | case6 bk bv bs sk sv ss hgt ih =>
    intro x h
    rw [show unionPairs c ((bk, bv) :: bs) ((sk, sv) :: ss)
        = (sk, sv) :: unionPairs c ((bk, bv) :: bs) ss
      from by simp [unionPairs, hgt]] at h
    rcases List.mem_cons.mp h with he | hm
    · exact Or.inr (by rw [he]; exact List.mem_cons_self _ _)
    · rcases ih x hm with h1 | h2
      · exact Or.inl h1
      · exact Or.inr (List.mem_cons_of_mem _ h2)
  | case7 bk bs sk sv ss heqc ih =>
    intro x h
    rw [show unionPairs c ((bk, ([] : Bytes)) :: bs) ((sk, sv) :: ss)
        = unionPairs c bs ss from by simp [unionPairs, heqc]] at h
    rcases ih x h with h1 | h2
    · exact Or.inl (List.mem_cons_of_mem _ h1)
    · exact Or.inr (List.mem_cons_of_mem _ h2)
  | case8 bk bv bs sk sv ss heqc hbv ih =>
    intro x h
    rw [show unionPairs c ((bk, bv) :: bs) ((sk, sv) :: ss)
        = (bk, bv) :: unionPairs c bs ss from by simp [unionPairs, heqc, hbv]] at h
    rcases List.mem_cons.mp h with he | hm
    · exact Or.inl (by rw [he]; exact List.mem_cons_self _ _)
    · rcases ih x hm with h1 | h2
      · exact Or.inl (List.mem_cons_of_mem _ h1)
      · exact Or.inr (List.mem_cons_of_mem _ h2)

theorem unionPairs_lookup (c : Bytes → Bytes → Ordering)
    (hEq : ∀ a b, c a b = Ordering.eq ↔ a = b)
    (hGt : ∀ a b, c a b = Ordering.gt ↔ c b a = Ordering.lt)
    (hTrans : ∀ a b d, c a b = Ordering.lt → c b d = Ordering.lt →
      c a d = Ordering.lt) :
    ∀ (bs ss : List (Bytes × Bytes)), sortedKeys c bs → sortedKeys c ss →
      ∀ (k v : Bytes),
      ((k, v) ∈ unionPairs c bs ss ↔
        (lookupAssoc bs k = some v ∧ v ≠ [])
        ∨ (lookupAssoc bs k = none ∧ lookupAssoc ss k = some v)) := by
  intro bs ss
  induction bs, ss using unionPairs.induct c with
  | case1 ss =>
    intro _ hss k v
    rw [show unionPairs c [] ss = ss from by simp [unionPairs]]
    rw [mem_iff_lookupAssoc ss (sortedKeys_nodup c hEq ss hss) k v]
    simp [lookupAssoc]
  | case2 bk bs ih =>
    intro hsb _ k v
    rw [show unionPairs c ((bk, ([] : Bytes)) :: bs) [] = unionPairs c bs []
      from by simp [unionPairs]]
    rw [ih (sortedKeys_tail c hsb) List.Pairwise.nil k v]
    by_cases hk : bk = k
    · subst hk
      have hnb : lookupAssoc bs bk = none :=
        sorted_head_lookup_tail_none c hEq hsb
      have hcons : lookupAssoc ((bk, ([] : Bytes)) :: bs) bk = some [] := by
        simp [lookupAssoc]
      rw [hnb, hcons]
      constructor
      · rintro (⟨h, _⟩ | ⟨_, h⟩) <;> exact absurd h (by simp [lookupAssoc])
      · rintro (⟨h, hne⟩ | ⟨h, _⟩)
        · injection h with h'
          exact absurd h'.symm hne
        · exact absurd h (by simp)
    · have hcons : lookupAssoc ((bk, ([] : Bytes)) :: bs) k = lookupAssoc bs k := by
        simp [lookupAssoc, hk]
      rw [hcons]
  | case3 bk bv bs hbv ih =>
    intro hsb _ k v
    rw [show unionPairs c ((bk, bv) :: bs) [] = (bk, bv) :: unionPairs c bs []
      from by simp [unionPairs, hbv]]
    rw [List.mem_cons, ih (sortedKeys_tail c hsb) List.Pairwise.nil k v]
    by_cases hk : bk = k
    · subst hk
      have hnb : lookupAssoc bs bk = none :=
        sorted_head_lookup_tail_none c hEq hsb
      have hcons : lookupAssoc ((bk, bv) :: bs) bk = some bv := by
        simp [lookupAssoc]
      rw [hnb, hcons]
      constructor
      · rintro (he | (⟨h, _⟩ | ⟨_, h⟩))
        · rw [Prod.mk.injEq] at he
          exact Or.inl ⟨by rw [he.2], by rw [he.2]; exact hbv⟩
        · exact absurd h (by simp)
        · exact absurd h (by simp [lookupAssoc])
      · rintro (⟨h, _⟩ | ⟨h, _⟩)
        · injection h with h'
          exact Or.inl (by rw [Prod.mk.injEq]; exact ⟨rfl, h'.symm⟩)
        · exact absurd h (by simp)
    · have hcons : lookupAssoc ((bk, bv) :: bs) k = lookupAssoc bs k := by
        simp [lookupAssoc, hk]
      rw [hcons]
      constructor
      · rintro (he | h)
        · rw [Prod.mk.injEq] at he
          exact absurd he.1.symm hk
        · exact h
      · intro h
        exact Or.inr h
  | case4 bk bs sk sv ss hlt ih =>
    intro hsb hss k v
    rw [show unionPairs c ((bk, ([] : Bytes)) :: bs) ((sk, sv) :: ss)
        = unionPairs c bs ((sk, sv) :: ss) from by simp [unionPairs, hlt]]
    rw [ih (sortedKeys_tail c hsb) hss k v]
    by_cases hk : bk = k
    · subst hk
      have hnb : lookupAssoc bs bk = none :=
        sorted_head_lookup_tail_none c hEq hsb
      have hns : lookupAssoc ((sk, sv) :: ss) bk = none :=
        lookupAssoc_none_of_lt_all c hEq _ bk
          (lt_all_of_lt_head c hTrans hlt hss)
      have hcons : lookupAssoc ((bk, ([] : Bytes)) :: bs) bk = some [] := by
        simp [lookupAssoc]
      rw [hnb, hns, hcons]
      constructor
      · rintro (⟨h, _⟩ | ⟨_, h⟩) <;> exact absurd h (by simp)
      · rintro (⟨h, hne⟩ | ⟨h, _⟩)
        · injection h with h'
          exact absurd h'.symm hne
        · exact absurd h (by simp)
    · have hcons : lookupAssoc ((bk, ([] : Bytes)) :: bs) k = lookupAssoc bs k := by
        simp [lookupAssoc, hk]
      rw [hcons]
  | case5 bk bv bs sk sv ss hlt hbv ih =>
    intro hsb hss k v
    rw [show unionPairs c ((bk, bv) :: bs) ((sk, sv) :: ss)
        = (bk, bv) :: unionPairs c bs ((sk, sv) :: ss)
      from by simp [unionPairs, hlt, hbv]]
    rw [List.mem_cons, ih (sortedKeys_tail c hsb) hss k v]
    by_cases hk : bk = k
    · subst hk
      have hnb : lookupAssoc bs bk = none :=
        sorted_head_lookup_tail_none c hEq hsb
      have hns : lookupAssoc ((sk, sv) :: ss) bk = none :=
        lookupAssoc_none_of_lt_all c hEq _ bk
          (lt_all_of_lt_head c hTrans hlt hss)
      have hcons : lookupAssoc ((bk, bv) :: bs) bk = some bv := by
        simp [lookupAssoc]
      rw [hnb, hns, hcons]
      constructor
      · rintro (he | (⟨h, _⟩ | ⟨_, h⟩))
        · rw [Prod.mk.injEq] at he
          exact Or.inl ⟨by rw [he.2], by rw [he.2]; exact hbv⟩
        · exact absurd h (by simp)
        · exact absurd h (by simp)
      · rintro (⟨h, _⟩ | ⟨h, _⟩)
        · injection h with h'
          exact Or.inl (by rw [Prod.mk.injEq]; exact ⟨rfl, h'.symm⟩)
        · exact absurd h (by simp)
    · have hcons : lookupAssoc ((bk, bv) :: bs) k = lookupAssoc bs k := by
        simp [lookupAssoc, hk]
      rw [hcons]
      constructor
      · rintro (he | h)
        · rw [Prod.mk.injEq] at he
          exact absurd he.1.symm hk
        · exact h
      · intro h
        exact Or.inr h
  | case6 bk bv bs sk sv ss hgt ih =>
    intro hsb hss k v
    have hsklt : c sk bk = Ordering.lt := (hGt bk sk).mp hgt
    rw [show unionPairs c ((bk, bv) :: bs) ((sk, sv) :: ss)
        = (sk, sv) :: unionPairs c ((bk, bv) :: bs) ss
      from by simp [unionPairs, hgt]]
    rw [List.mem_cons, ih hsb (sortedKeys_tail c hss) k v]
    by_cases hk : sk = k
    · subst hk
      have hnb : lookupAssoc ((bk, bv) :: bs) sk = none :=
        lookupAssoc_none_of_lt_all c hEq _ sk
          (lt_all_of_lt_head c hTrans hsklt hsb)
      have hnss : lookupAssoc ss sk = none :=
        sorted_head_lookup_tail_none c hEq hss
      have hconss : lookupAssoc ((sk, sv) :: ss) sk = some sv := by
        simp [lookupAssoc]
      rw [hnb, hnss, hconss]
      constructor
      · rintro (he | (⟨h, _⟩ | ⟨_, h⟩))
        · rw [Prod.mk.injEq] at he
          exact Or.inr ⟨rfl, by rw [he.2]⟩
        · exact absurd h (by simp)
        · exact absurd h (by simp)
      · rintro (⟨h, _⟩ | ⟨_, h⟩)
        · exact absurd h (by simp)
        · injection h with h'
          exact Or.inl (by rw [Prod.mk.injEq]; exact ⟨rfl, h'.symm⟩)
    · have hconss : lookupAssoc ((sk, sv) :: ss) k = lookupAssoc ss k := by
        simp [lookupAssoc, hk]
      rw [hconss]
      constructor
      · rintro (he | h)
        · rw [Prod.mk.injEq] at he
          exact absurd he.1.symm hk
        · exact h
      · intro h
        exact Or.inr h
  | case7 bk bs sk sv ss heqc ih =>
    intro hsb hss k v
    have hbksk : bk = sk := (hEq bk sk).mp heqc
    rw [show unionPairs c ((bk, ([] : Bytes)) :: bs) ((sk, sv) :: ss)
        = unionPairs c bs ss from by simp [unionPairs, heqc]]
    rw [ih (sortedKeys_tail c hsb) (sortedKeys_tail c hss) k v]
    by_cases hk : bk = k
    · subst hk
      have hnb : lookupAssoc bs bk = none :=
        sorted_head_lookup_tail_none c hEq hsb
      have hnss : lookupAssoc ss bk = none := by
        rw [hbksk]
        exact sorted_head_lookup_tail_none c hEq hss
      have hcons : lookupAssoc ((bk, ([] : Bytes)) :: bs) bk = some [] := by
        simp [lookupAssoc]
      rw [hnb, hnss, hcons]
      constructor
      · rintro (⟨h, _⟩ | ⟨_, h⟩) <;> exact absurd h (by simp)
      · rintro (⟨h, hne⟩ | ⟨h, _⟩)
        · injection h with h'
          exact absurd h'.symm hne
        · exact absurd h (by simp)
    · have hsk : ¬ sk = k := by
        rw [← hbksk]
        exact hk
      have hconsb : lookupAssoc ((bk, ([] : Bytes)) :: bs) k = lookupAssoc bs k := by
        simp [lookupAssoc, hk]
      have hconss : lookupAssoc ((sk, sv) :: ss) k = lookupAssoc ss k := by
        simp [lookupAssoc, hsk]
      rw [hconsb, hconss]
  | case8 bk bv bs sk sv ss heqc hbv ih =>
    intro hsb hss k v
    have hbksk : bk = sk := (hEq bk sk).mp heqc
    rw [show unionPairs c ((bk, bv) :: bs) ((sk, sv) :: ss)
        = (bk, bv) :: unionPairs c bs ss from by simp [unionPairs, heqc, hbv]]
    rw [List.mem_cons, ih (sortedKeys_tail c hsb) (sortedKeys_tail c hss) k v]
    by_cases hk : bk = k
    · subst hk
      have hnb : lookupAssoc bs bk = none :=
        sorted_head_lookup_tail_none c hEq hsb
      have hnss : lookupAssoc ss bk = none := by
        rw [hbksk]
        exact sorted_head_lookup_tail_none c hEq hss
      have hcons : lookupAssoc ((bk, bv) :: bs) bk = some bv := by
        simp [lookupAssoc]
      rw [hnb, hnss, hcons]
      constructor
      · rintro (he | (⟨h, _⟩ | ⟨_, h⟩))
        · rw [Prod.mk.injEq] at he
          exact Or.inl ⟨by rw [he.2], by rw [he.2]; exact hbv⟩
        · exact absurd h (by simp)
        · exact absurd h (by simp)
      · rintro (⟨h, _⟩ | ⟨h, _⟩)
        · injection h with h'
          exact Or.inl (by rw [Prod.mk.injEq]; exact ⟨rfl, h'.symm⟩)
        · exact absurd h (by simp)
    · have hsk : ¬ sk = k := by
        rw [← hbksk]
        exact hk
      have hconsb : lookupAssoc ((bk, bv) :: bs) k = lookupAssoc bs k := by
        simp [lookupAssoc, hk]
      have hconss : lookupAssoc ((sk, sv) :: ss) k = lookupAssoc ss k := by
        simp [lookupAssoc, hsk]
      rw [hconsb, hconss]
      constructor
      · rintro (he | h)
        · rw [Prod.mk.injEq] at he
          exact absurd he.1.symm hk
        · exact h
      · intro h
        exact Or.inr h

theorem unionPairs_sorted (c : Bytes → Bytes → Ordering)
    (hEq : ∀ a b, c a b = Ordering.eq ↔ a = b)
    (hGt : ∀ a b, c a b = Ordering.gt ↔ c b a = Ordering.lt)
    (hTrans : ∀ a b d, c a b = Ordering.lt → c b d = Ordering.lt →
      c a d = Ordering.lt) :
    ∀ (bs ss : List (Bytes × Bytes)), sortedKeys c bs → sortedKeys c ss →
      sortedKeys c (unionPairs c bs ss) := by
  intro bs ss
  induction bs, ss using unionPairs.induct c with
  | case1 ss =>
    intro _ hss
    rw [show unionPairs c [] ss = ss from by simp [unionPairs]]
    exact hss
  | case2 bk bs ih =>
    intro hsb hss
    rw [show unionPairs c ((bk, ([] : Bytes)) :: bs) [] = unionPairs c bs []
      from by simp [unionPairs]]
    exact ih (sortedKeys_tail c hsb) hss
  | case3 bk bv bs hbv ih =>
    intro hsb hss
    rw [show unionPairs c ((bk, bv) :: bs) [] = (bk, bv) :: unionPairs c bs []
      from by simp [unionPairs, hbv]]
    refine List.pairwise_cons.mpr ⟨?_, ih (sortedKeys_tail c hsb) hss⟩
    intro p hp
    rcases unionPairs_mem_sub c bs [] p hp with h1 | h2
    · exact sortedKeys_head_lt c hsb p h1
    · exact absurd h2 (List.not_mem_nil p)
  | case4 bk bs sk sv ss hlt ih =>
    intro hsb hss
    rw [show unionPairs c ((bk, ([] : Bytes)) :: bs) ((sk, sv) :: ss)
        = unionPairs c bs ((sk, sv) :: ss) from by simp [unionPairs, hlt]]
    exact ih (sortedKeys_tail c hsb) hss
  | case5 bk bv bs sk sv ss hlt hbv ih =>
    intro hsb hss
    rw [show unionPairs c ((bk, bv) :: bs) ((sk, sv) :: ss)
        = (bk, bv) :: unionPairs c bs ((sk, sv) :: ss)
      from by simp [unionPairs, hlt, hbv]]
    refine List.pairwise_cons.mpr ⟨?_, ih (sortedKeys_tail c hsb) hss⟩
    intro p hp
    rcases unionPairs_mem_sub c bs ((sk, sv) :: ss) p hp with h1 | h2
    · exact sortedKeys_head_lt c hsb p h1
    · exact lt_all_of_lt_head c hTrans hlt hss p h2
  | case6 bk bv bs sk sv ss hgt ih =>
    intro hsb hss
    have hsklt : c sk bk = Ordering.lt := (hGt bk sk).mp hgt
    rw [show unionPairs c ((bk, bv) :: bs) ((sk, sv) :: ss)
        = (sk, sv) :: unionPairs c ((bk, bv) :: bs) ss
      from by simp [unionPairs, hgt]]
    refine List.pairwise_cons.mpr ⟨?_, ih hsb (sortedKeys_tail c hss)⟩
    intro p hp
    rcases unionPairs_mem_sub c ((bk, bv) :: bs) ss p hp with h1 | h2
    · exact lt_all_of_lt_head c hTrans hsklt hsb p h1
    · exact sortedKeys_head_lt c hss p h2
  | case7 bk bs sk sv ss heqc ih =>
    intro hsb hss
    rw [show unionPairs c ((bk, ([] : Bytes)) :: bs) ((sk, sv) :: ss)
        = unionPairs c bs ss from by simp [unionPairs, heqc]]
    exact ih (sortedKeys_tail c hsb) (sortedKeys_tail c hss)
  | case8 bk bv bs sk sv ss heqc hbv ih =>
    intro hsb hss
    have hbksk : bk = sk := (hEq bk sk).mp heqc
    rw [show unionPairs c ((bk, bv) :: bs) ((sk, sv) :: ss)
        = (bk, bv) :: unionPairs c bs ss from by simp [unionPairs, heqc, hbv]]
    refine List.pairwise_cons.mpr
      ⟨?_, ih (sortedKeys_tail c hsb) (sortedKeys_tail c hss)⟩
    intro p hp
    rcases unionPairs_mem_sub c bs ss p hp with h1 | h2
    · exact sortedKeys_head_lt c hsb p h1
    · show c (bk, bv).1 p.1 = Ordering.lt
      rw [show (bk, bv).1 = sk from hbksk]
      exact sortedKeys_head_lt c hss p h2

/-- Claim C2: over identically bounded, identically directed sorted inputs,
the union iterator yields exactly the pairs `(k, B[k])` for keys present in
the buffer and `(k, S[k])` for keys present only in the snapshot, with every
pair whose buffer value is empty (a tombstone) skipped — on a shared key the
buffer entry shadows the snapshot entry — and the output is in key order
(descending for the reverse direction). -/
theorem unionIter_spec : ∀ (reverse : Bool) (bs ss : List (Bytes × Bytes)),
    sortedKeys (dirCmp reverse) bs → sortedKeys (dirCmp reverse) ss →
    (∀ k v, ((k, v) ∈ unionPairs (dirCmp reverse) bs ss ↔
      (lookupAssoc bs k = some v ∧ v ≠ [])
      ∨ (lookupAssoc bs k = none ∧ lookupAssoc ss k = some v)))
    ∧ sortedKeys (dirCmp reverse) (unionPairs (dirCmp reverse) bs ss) := by
  intro reverse bs ss hsb hss
  have hEq := dirCmp_eq_iff reverse
  have hGt := dirCmp_gt_iff_lt reverse
  have hTrans := dirCmp_lt_trans reverse
  exact ⟨unionPairs_lookup (dirCmp reverse) hEq hGt hTrans bs ss hsb hss,
    unionPairs_sorted (dirCmp reverse) hEq hGt hTrans bs ss hsb hss⟩

/-- Witness for C2 on the spec's concrete scenario (§8.2.4): snapshot
`{a: S, b: S, c: S}`, buffer `{a: B, b: tombstone}`; the forward union
contains `(a, B)` (buffer shadows) and `(c, S)`, and is sorted; the keys are
rendered as `[0]`, `[1]`, `[2]` and the values as byte strings. -/
theorem unionIter_spec_witness :
    (([2], [83]) ∈ unionPairs (dirCmp false)
        [([0], [66]), ([1], [])] [([0], [83]), ([1], [83]), ([2], [83])])
    ∧ (([0], [66]) ∈ unionPairs (dirCmp false)
        [([0], [66]), ([1], [])] [([0], [83]), ([1], [83]), ([2], [83])])
    ∧ sortedKeys (dirCmp false) (unionPairs (dirCmp false)
        [([0], [66]), ([1], [])] [([0], [83]), ([1], [83]), ([2], [83])]) := by
  have h := unionIter_spec false [([0], [66]), ([1], [])]
    [([0], [83]), ([1], [83]), ([2], [83])] (by decide) (by decide)
  refine ⟨?_, ?_, h.2⟩
  · exact (h.1 [2] [83]).mpr (Or.inr ⟨by decide, by decide⟩)
  · exact (h.1 [0] [66]).mpr (Or.inl ⟨by decide, by decide⟩)
